import Mathlib

/-!
Shallow embedding of `form4_screener.py` (class `Form4Screener`), a Form 4
insider-trading screener: it filters a company's filing metadata to Form 4
filings in a date window, fetches each filing's XML, parses reporting owners
and non-derivative transactions into flattened records, and exports them as
CSV rows.  Pure functions are translated directly; the two HTTP calls are
modelled by passing the fetched response (status and body) as an argument.
-/

namespace Form4

/-! ## Generic string/character helpers (models of the Python built-ins used) -/

/-- Model of Python `str.find(c)` on a character list: index of the first
occurrence, or `none` (Python returns -1; the `none` case is handled at each
use site exactly as the source handles -1). -/
def findIdxC (c : Char) : List Char → Option Nat
  | [] => none
  | a :: as => if a = c then some 0 else (findIdxC c as).map (· + 1)

/-- Model of Python `str.split(c)` (single-character separator): splits into
the (possibly empty) chunks between occurrences of `c`. -/
def splitOnC (c : Char) : List Char → List (List Char)
  | [] => [[]]
  | a :: as =>
    if a = c then [] :: splitOnC c as
    else
      match splitOnC c as with
      | [] => [[a]]
      | g :: gs => (a :: g) :: gs

/-- Model of Python `str.strip()`: remove leading and trailing whitespace. -/
def pyStrip (s : String) : String :=
  String.mk (((s.data.dropWhile Char.isWhitespace).reverse.dropWhile Char.isWhitespace).reverse)

/-- Model of Python `str.lower()`. -/
def pyLower (s : String) : String :=
  String.mk (s.data.map Char.toLower)

/-- Whether `nd` is a leading segment of the second list. -/
def leadsC : List Char → List Char → Bool
  | [], _ => true
  | _ :: _, [] => false
  | a :: as, b :: bs => a = b && leadsC as bs

/-- Whether `nd` occurs contiguously somewhere in the list. -/
def occursC (nd : List Char) : List Char → Bool
  | [] => nd.isEmpty
  | a :: as => leadsC nd (a :: as) || occursC nd as

/-- Model of Python's substring test `needle in hay`. -/
def containsSub (hay needle : String) : Bool :=
  occursC needle.data hay.data

/-- Python truthiness of an optional string: `None` and `""` are falsy. -/
def truthy : Option String → Bool
  | none => false
  | some s => s ≠ ""

/-- Model of a chain `a or b or ... or dflt` of Python `or`-fallbacks over
optional strings ending in a string literal: first truthy value wins. -/
def firstTruthy : List (Option String) → String → String
  | [], d => d
  | o :: rest, d => if truthy o then o.getD "" else firstTruthy rest d

/-! ## XML trees

`xml.etree.ElementTree` elements are modelled as trees carrying a tag, an
optional text payload, and a list of children.  A namespaced element's tag is
the string `{uri}localname`, exactly as ElementTree represents it. -/

mutual
inductive XML where
  | mk (tag : String) (text : Option String) (children : XMLList)
inductive XMLList where
  | nil
  | cons (hd : XML) (tl : XMLList)
end

def XMLList.toList : XMLList → List XML
  | .nil => []
  | .cons x xs => x :: XMLList.toList xs

def XMLList.ofList : List XML → XMLList
  | [] => .nil
  | x :: xs => .cons x (XMLList.ofList xs)

def XML.tag : XML → String
  | .mk t _ _ => t

def XML.text : XML → Option String
  | .mk _ tx _ => tx

def XML.childrenList : XML → List XML
  | .mk _ _ cs => cs.toList

/-- Convenience constructor for concrete documents. -/
def el (t : String) (tx : Option String) (cs : List XML) : XML :=
  .mk t tx (XMLList.ofList cs)

mutual
/-- All proper descendants of an element in document (preorder) order: the
elements ElementTree's `.//` path steps over. -/
def descendants : XML → List XML
  | .mk _ _ cs => descList cs
def descList : XMLList → List XML
  | .nil => []
  | .cons c cs => c :: descendants c ++ descList cs
end

/-- The `{uri}` qualifier ElementTree prepends to a tag in namespace `uri`. -/
def nsWrap (u : String) : String := "\x7b" ++ u ++ "\x7d"

/-- `root.tag[root.tag.find("\x7b")+1:root.tag.find("\x7d")] if "\x7d" in root.tag else ""`
(line 60 of the source): the namespace URI extracted from the root tag. -/
def extract_ns (tag : String) : String :=
  let cs := tag.data
  match findIdxC '\x7d' cs with
  | none => ""
  | some b =>
    let a : Nat :=
      match findIdxC '\x7b' cs with
      | some i => i + 1
      | none => 0
    String.mk ((cs.drop a).take (b - a))

/-- The effective tag looked up for local name `lname`: the source combines
`ns:lname` with the namespace map `NS`, which ElementTree resolves to
`{ns_url}lname`; with no namespace the local name is used as-is. -/
def effTag (ns_url lname : String) : String :=
  (if ns_url = "" then "" else nsWrap ns_url) ++ lname

/-- All elements matched by a relative ElementTree path (a list of tag
segments): at each step, matching children of every current element, in
document order. -/
def pathMatches (x : XML) : List String → List XML
  | [] => [x]
  | s :: rest => (x.childrenList.filter (fun c => c.tag = s)).flatMap (fun c => pathMatches c rest)

/-- `el.findtext(path, None, NS)` for an already-resolved segment list: text
of the first match (with `""` for an element that has no text), `none` when
nothing matches. -/
def findtextRaw (x : XML) (segs : List String) : Option String :=
  ((pathMatches x segs).head?).map (fun e => e.text.getD "")

/-- Splits a source path string such as `"transactionCoding/transactionCode"`
into its segments (`path.split('/')` in the source). -/
def splitSlash (path : String) : List String :=
  (splitOnC '/' path.data).map String.mk

/-- The source's local helper `find_text(el, path)` (lines 64–67): `None`
when the element is `None`, otherwise `findtext` with every path segment
namespace-qualified and default `None`. -/
def find_text (ns_url : String) (elem : Option XML) (path : String) : Option String :=
  match elem with
  | none => none
  | some e => findtextRaw e ((splitSlash path).map (effTag ns_url))

/-- `x.find(f'{prefix}lname', NS)`: first matching direct child. -/
def findChild (ns_url : String) (x : XML) (lname : String) : Option XML :=
  x.childrenList.find? (fun c => c.tag = effTag ns_url lname)

/-- `root.findall(f'.//{prefix}lname', NS)`: all matching proper descendants
in document order. -/
def findall (ns_url : String) (x : XML) (lname : String) : List XML :=
  (descendants x).filter (fun c => c.tag = effTag ns_url lname)

/-! ## Parser data model -/

structure Owner where
  officer_name : String
  officer_title : String
deriving DecidableEq

structure TxFields where
  transaction_code : Option String
  transaction_type : String
  transaction_date : Option String
  shares : Option String
  price_per_share : Option String
  security_title : Option String
deriving DecidableEq

/-- One flattened (owner, transaction) record, fields in the dictionary
insertion order of the source (lines 97–105). -/
structure Record where
  officer_name : String
  officer_title : String
  transaction_code : Option String
  transaction_type : String
  transaction_date : Option String
  shares : Option String
  price_per_share : Option String
  security_title : Option String
deriving DecidableEq

def acquireCodes : List String := ["P", "F", "A", "M", "E", "J"]

def disposeCodes : List String := ["S", "D", "G", "W"]

/-- The classification of lines 89–94: `BUY` when the code is truthy and its
stripped form is an acquire code, `SELL` for a dispose code, else `OTHER`. -/
def classify (tx_code : Option String) : String :=
  if truthy tx_code = true ∧ pyStrip (tx_code.getD "") ∈ acquireCodes then "BUY"
  else if truthy tx_code = true ∧ pyStrip (tx_code.getD "") ∈ disposeCodes then "SELL"
  else "OTHER"

/-- Owner extraction of lines 71–76: name from `reportingOwnerId`'s
`rptOwnerName` falling back to `ownerName` falling back to `'Unknown'`; title
from `reportingOwnerRelationship`'s `officerTitle` falling back to `''`. -/
def extractOwner (ns_url : String) (owner : XML) : Owner :=
  let oid := findChild ns_url owner "reportingOwnerId"
  { officer_name :=
      firstTruthy [find_text ns_url oid "rptOwnerName", find_text ns_url oid "ownerName"] "Unknown"
    officer_title :=
      firstTruthy [find_text ns_url (findChild ns_url owner "reportingOwnerRelationship") "officerTitle"] "" }

/-- Transaction-level extraction of lines 80–94: code via a direct path with
a `/value` fallback when falsy, the other four fields via single lookups, and
the derived type from `classify`. -/
def txFields (ns_url : String) (tx : XML) : TxFields :=
  let c0 := find_text ns_url (some tx) "transactionCoding/transactionCode"
  let tx_code := if truthy c0 then c0 else find_text ns_url (some tx) "transactionCoding/transactionCode/value"
  { transaction_code := tx_code
    transaction_type := classify tx_code
    transaction_date := find_text ns_url (some tx) "transactionDate/value"
    shares := find_text ns_url (some tx) "transactionAmounts/transactionShares/value"
    price_per_share := find_text ns_url (some tx) "transactionAmounts/transactionPricePerShare/value"
    security_title := find_text ns_url (some tx) "securityTitle/value" }

def mkRecord (o : Owner) (t : TxFields) : Record :=
  { officer_name := o.officer_name
    officer_title := o.officer_title
    transaction_code := t.transaction_code
    transaction_type := t.transaction_type
    transaction_date := t.transaction_date
    shares := t.shares
    price_per_share := t.price_per_share
    security_title := t.security_title }

/-- The namespace URI the parser derives from a document's root tag. -/
def nsOf (root : XML) : String := extract_ns root.tag

/-- The `reportingOwner` elements the parser iterates (line 71). -/
def ownerElems (root : XML) : List XML := findall (nsOf root) root "reportingOwner"

/-- The `nonDerivativeTransaction` elements the parser iterates (line 79). -/
def txElems (root : XML) : List XML := findall (nsOf root) root "nonDerivativeTransaction"

/-- `parse_non_derivative` (lines 56–111) on an already-parsed tree: extract
the owners once, then for every non-derivative transaction append one record
per owner, owner loop innermost. -/
def parse_non_derivative (root : XML) : List Record :=
  let ns_url := nsOf root
  let owners := (ownerElems root).map (extractOwner ns_url)
  (txElems root).flatMap (fun tx => owners.map (fun o => mkRecord o (txFields ns_url tx)))

/-! ## Namespace wrapping

`addNS u` maps a document to the structurally identical document in which
every element's tag carries the `{u}` namespace qualifier — the relation
between a non-namespaced filing and its namespaced twin. -/

mutual
def addNS (u : String) : XML → XML
  | .mk t tx cs => .mk (nsWrap u ++ t) tx (addNSL u cs)
def addNSL (u : String) : XMLList → XMLList
  | .nil => .nil
  | .cons c cs => .cons (addNS u c) (addNSL u cs)
end

/-! ## Dates and the filing selector -/

/-- A calendar date as `datetime.strptime(s, '%Y-%m-%d')` produces it. -/
structure Date where
  year : Nat
  month : Nat
  day : Nat
deriving DecidableEq

/-- `datetime` comparison: lexicographic on (year, month, day). -/
def dateLe (a b : Date) : Bool :=
  a.year < b.year ||
    (a.year = b.year && (a.month < b.month || (a.month = b.month && a.day ≤ b.day)))

def isLeap (y : Nat) : Bool :=
  (y % 4 = 0 && y % 100 ≠ 0) || y % 400 = 0

def daysInMonth (y m : Nat) : Nat :=
  if m = 2 then (if isLeap y then 29 else 28)
  else if m ∈ ([4, 6, 9, 11] : List Nat) then 30
  else 31

/-- Numeric value of a digit string. -/
def digitsVal (cs : List Char) : Nat :=
  cs.foldl (fun n c => n * 10 + (c.toNat - 48)) 0

/-- Model of `datetime.strptime(s, '%Y-%m-%d')`: exactly three `-`-separated
fields; a four-digit year; a one- or two-digit month in 1..12; a one- or
two-digit day valid for the month; year at least 1 (`datetime.MINYEAR`).
`none` models the `ValueError` Python raises otherwise. -/
def strptimeYmd (s : String) : Option Date :=
  match splitOnC '-' s.data with
  | [ys, ms, ds] =>
    if ys.length = 4 ∧ ys.all Char.isDigit ∧
       1 ≤ ms.length ∧ ms.length ≤ 2 ∧ ms.all Char.isDigit ∧
       1 ≤ ds.length ∧ ds.length ≤ 2 ∧ ds.all Char.isDigit then
      let y := digitsVal ys
      let m := digitsVal ms
      let d := digitsVal ds
      if 1 ≤ y ∧ 1 ≤ m ∧ m ≤ 12 ∧ 1 ≤ d ∧ d ≤ daysInMonth y m then
        some ⟨y, m, d⟩
      else none
    else none
  | _ => none

/-- The `filings.recent` section of the submissions JSON: the four parallel
metadata lists the selector reads, each possibly absent. -/
structure RecentFilings where
  form : Option (List String)
  filingDate : Option (List String)
  accessionNumber : Option (List String)
  primaryDocument : Option (List String)

/-- The empty dict `{}` that `.get(..., {})` substitutes. -/
def RecentFilings.empty : RecentFilings := ⟨none, none, none, none⟩

structure FilingsSection where
  recent : Option RecentFilings

/-- The submissions JSON, to the depth the selector inspects. -/
structure SubmissionsJson where
  filings : Option FilingsSection

/-- The selected reference to one filing (lines 38–41). -/
structure FilingRef where
  accession_number : String
  primaryDocument : String
deriving DecidableEq

/-- Python `zip` over four lists: tuples up to the shortest list. -/
def zip4 : List String → List String → List String → List String →
    List (String × String × String × String)
  | a :: as, b :: bs, c :: cs, d :: ds => (a, b, c, d) :: zip4 as bs cs ds
  | _, _, _, _ => []

/-- The loop body of `filter_form4_filings` (lines 27–41) over the zipped
rows.  `none` models the `ValueError` from a failed `strptime`; the chained
comparison parses `start_date` first and `end_date` only if the lower bound
holds, exactly as Python evaluates `a <= b <= c`. -/
def filter_loop (start_date end_date : String) :
    List (String × String × String × String) → Option (List FilingRef)
  | [] => some []
  | (form_type, fdate, acc, primary_doc) :: rest =>
    if form_type ∉ (["4", "4/A"] : List String) then
      filter_loop start_date end_date rest
    else
      (strptimeYmd fdate).bind fun filing_dt =>
        (strptimeYmd start_date).bind fun sd =>
          if !dateLe sd filing_dt then filter_loop start_date end_date rest
          else
            (strptimeYmd end_date).bind fun ed =>
              if !dateLe filing_dt ed then filter_loop start_date end_date rest
              else (filter_loop start_date end_date rest).map (fun l => ⟨acc, primary_doc⟩ :: l)

/-- `filter_form4_filings` (lines 23–42): read the four parallel lists out of
`filings.recent` (defaulting every missing level), zip them, and keep the
Form 4 / 4-A rows inside the inclusive date window, in source order. -/
def filter_form4_filings (filings_json : SubmissionsJson) (start_date end_date : String) :
    Option (List FilingRef) :=
  let recent :=
    match filings_json.filings with
    | none => RecentFilings.empty
    | some fs => fs.recent.getD RecentFilings.empty
  filter_loop start_date end_date
    (zip4 (recent.form.getD []) (recent.filingDate.getD []) (recent.accessionNumber.getD [])
      (recent.primaryDocument.getD []))

/-! ## Document fetcher -/

/-- An HTTP response as `requests` exposes it to this code. -/
structure HttpResponse where
  status : Nat
  text : String

/-- The response handling of `fetch_xml` (lines 50–54), with the HTTP GET
modelled by passing the fetched response and the composed archive URL:
`raise_for_status` raises on 4xx/5xx, then a body whose lowercase form
contains `<html` raises `ValueError`, otherwise the body is returned. -/
def fetch_xml (url : String) (resp : HttpResponse) : Except String String :=
  if 400 ≤ resp.status ∧ resp.status < 600 then
    .error ("HTTP error " ++ toString resp.status)
  else if containsSub (pyLower resp.text) "<html" then
    .error ("HTML page found instead of XML: " ++ url)
  else .ok resp.text

/-! ## Exporter -/

/-- The key set of every record dict, in insertion order (lines 97–105);
`fieldnames = list(all_transactions[0].keys())` yields exactly this list. -/
def recordFieldnames : List String :=
  ["officer_name", "officer_title", "transaction_code", "transaction_type",
   "transaction_date", "shares", "price_per_share", "security_title"]

/-- How `csv` renders a value: `None` becomes the empty field. -/
def csvCell : Option String → String
  | none => ""
  | some s => s

/-- One CSV data row for a record, in field order. -/
def recordRow (r : Record) : List String :=
  [r.officer_name, r.officer_title, csvCell r.transaction_code, r.transaction_type,
   csvCell r.transaction_date, csvCell r.shares, csvCell r.price_per_share,
   csvCell r.security_title]

/-- The export block (lines 135–144): `none` models the empty branch (no
file is created, only the zero-record notice is printed); otherwise the
written file's rows — the header from the first record's key order, then one
row per record in aggregation order. -/
def export_csv (all_transactions : List Record) : Option (List (List String)) :=
  match all_transactions with
  | [] => none
  | _ :: _ => some (recordFieldnames :: all_transactions.map recordRow)

/-! ## Concrete documents and metadata used as evaluation witnesses -/

/-- A submissions JSON in which all four parallel lists are present. -/
def mkJson (forms fdates accs docs : List String) : SubmissionsJson :=
  ⟨some ⟨some ⟨some forms, some fdates, some accs, some docs⟩⟩⟩

def exTxP : XML :=
  el "nonDerivativeTransaction" none
    [ el "securityTitle" none [el "value" (some "Common Stock") []]
    , el "transactionDate" none [el "value" (some "2021-02-03") []]
    , el "transactionCoding" none [el "transactionCode" (some "P") []]
    , el "transactionAmounts" none
        [ el "transactionShares" none [el "value" (some "100") []]
        , el "transactionPricePerShare" none [el "value" (some "10.5") []] ] ]

def exTxS : XML :=
  el "nonDerivativeTransaction" none
    [ el "securityTitle" none [el "value" (some "Common Stock") []]
    , el "transactionDate" none [el "value" (some "2021-03-04") []]
    , el "transactionCoding" none [el "transactionCode" (some "S") []]
    , el "transactionAmounts" none
        [ el "transactionShares" none [el "value" (some "50") []]
        , el "transactionPricePerShare" none [el "value" (some "11") []] ] ]

/-- A transaction whose code carries surrounding whitespace. -/
def exTxStrip : XML :=
  el "nonDerivativeTransaction" none
    [ el "transactionDate" none [el "value" (some "2021-02-03") []]
    , el "transactionCoding" none [el "transactionCode" (some " P ") []] ]

/-- A transaction with a code but no `transactionDate` element. -/
def exTxNoDate : XML :=
  el "nonDerivativeTransaction" none
    [ el "transactionCoding" none [el "transactionCode" (some "P") []] ]

/-- A transaction element with no children at all. -/
def exTxBare : XML := el "nonDerivativeTransaction" none []

def exOwnerA : XML :=
  el "reportingOwner" none
    [ el "reportingOwnerId" none [el "rptOwnerName" (some "Alice") []]
    , el "reportingOwnerRelationship" none [el "officerTitle" (some "CEO") []] ]

/-- An owner whose name is only available through the alternate path. -/
def exOwnerB : XML :=
  el "reportingOwner" none
    [ el "reportingOwnerId" none [el "ownerName" (some "Bob") []] ]

/-- An owner element with no identifying children. -/
def exOwnerBare : XML := el "reportingOwner" none []

/-- A filing with two owners and two transactions (one nested one level
deeper, as in real filings). -/
def exDoc2 : XML :=
  el "ownershipDocument" none
    [exOwnerA, exOwnerB, el "nonDerivativeTable" none [exTxP, exTxS]]

/-- A filing with one owner and one whitespace-padded transaction code. -/
def exDocStrip : XML := el "ownershipDocument" none [exOwnerA, exTxStrip]

def exNsUri : String := "http://www.sec.gov/edgar/ownership"

/-! ## Structural lemmas -/

theorem toList_addNSL (u : String) (l : XMLList) :
    (addNSL u l).toList = l.toList.map (addNS u) :=
  match l with
  | .nil => rfl
  | .cons x xs => by
    simp only [addNSL, XMLList.toList, List.map_cons, toList_addNSL u xs]

theorem tag_addNS (u : String) (x : XML) : (addNS u x).tag = nsWrap u ++ x.tag := by
  cases x
  rfl

theorem text_addNS (u : String) (x : XML) : (addNS u x).text = x.text := by
  cases x
  rfl

theorem childrenList_addNS (u : String) (x : XML) :
    (addNS u x).childrenList = x.childrenList.map (addNS u) := by
  cases x
  simp only [addNS, XML.childrenList, toList_addNSL]

mutual
theorem descendants_addNS (u : String) (x : XML) :
    descendants (addNS u x) = (descendants x).map (addNS u) :=
  match x with
  | .mk t tx cs => by
    simp only [addNS, descendants, descList_addNS u cs]
theorem descList_addNS (u : String) (l : XMLList) :
    descList (addNSL u l) = (descList l).map (addNS u) :=
  match l with
  | .nil => rfl
  | .cons c cs => by
    simp only [addNSL, descList, List.map_cons, List.map_append,
      descendants_addNS u c, descList_addNS u cs]
end

theorem string_append_left_cancel (s a b : String) : s ++ a = s ++ b ↔ a = b := by
  constructor
  · intro h
    have h2 : s.data ++ a.data = s.data ++ b.data := by
      have := congrArg String.data h
      simpa [String.data_append] using this
    have h3 : a.data = b.data := List.append_cancel_left h2
    cases a
    cases b
    exact congrArg String.mk h3
  · intro h
    rw [h]

theorem effTag_empty (lname : String) : effTag "" lname = lname := rfl

theorem effTag_of_ne (u lname : String) (hu : u ≠ "") :
    effTag u lname = nsWrap u ++ lname := by
  simp [effTag, hu]

/-! ## `extract_ns` lemmas -/

theorem findIdxC_eq_none (c : Char) (l : List Char) (h : c ∉ l) :
    findIdxC c l = none := by
  induction l with
  | nil => rfl
  | cons a as ih =>
    simp only [List.mem_cons, not_or] at h
    simp [findIdxC, Ne.symm h.1, ih h.2]

theorem findIdxC_append_self (c : Char) (l r : List Char) (h : c ∉ l) :
    findIdxC c (l ++ c :: r) = some l.length := by
  induction l with
  | nil => simp [findIdxC]
  | cons a as ih =>
    simp only [List.mem_cons, not_or] at h
    simp [findIdxC, Ne.symm h.1, ih h.2]

/-- A tag without a closing brace yields the empty namespace. -/
theorem extract_ns_plain (t : String) (h : '\x7d' ∉ t.data) : extract_ns t = "" := by
  simp [extract_ns, findIdxC_eq_none _ _ h]

/-- A tag of the form `{u}t` with a brace-free `u` yields namespace `u`. -/
theorem extract_ns_wrap (u t : String) (hu : '\x7d' ∉ u.data) :
    extract_ns (nsWrap u ++ t) = u := by
  have hdata : (nsWrap u ++ t).data = '\x7b' :: (u.data ++ '\x7d' :: t.data) := by
    simp [nsWrap, String.data_append]
  have hopen : findIdxC '\x7b' (nsWrap u ++ t).data = some 0 := by
    rw [hdata]
    simp [findIdxC]
  have hclose : findIdxC '\x7d' (nsWrap u ++ t).data = some (u.data.length + 1) := by
    rw [hdata]
    have : ('\x7b' : Char) ≠ '\x7d' := by decide
    simp [findIdxC, this, findIdxC_append_self _ _ _ hu]
  rw [extract_ns]
  rw [hclose, hopen]
  simp only [hdata, Nat.zero_add, Nat.add_sub_cancel, List.drop_succ_cons, List.drop_zero,
    List.take_left]

/-! ## List commutation helpers -/

theorem filter_map_comm {α β : Type} (f : α → β) (p : β → Bool) (q : α → Bool)
    (hpq : ∀ a, p (f a) = q a) (l : List α) :
    (l.map f).filter p = (l.filter q).map f := by
  induction l with
  | nil => rfl
  | cons a as ih =>
    by_cases h : q a = true
    · simp [List.filter_cons, hpq, h, ih]
    · simp only [Bool.not_eq_true] at h
      simp [List.filter_cons, hpq, h, ih]

theorem find?_map_comm {α β : Type} (f : α → β) (p : β → Bool) (q : α → Bool)
    (hpq : ∀ a, p (f a) = q a) (l : List α) :
    (l.map f).find? p = (l.find? q).map f := by
  induction l with
  | nil => rfl
  | cons a as ih =>
    by_cases h : q a = true
    · simp [List.find?_cons, hpq, h]
    · simp only [Bool.not_eq_true] at h
      simp [List.find?_cons, hpq, h, ih]

theorem flatMap_congr {α β : Type} (l : List α) (f g : α → List β)
    (h : ∀ a ∈ l, f a = g a) : l.flatMap f = l.flatMap g := by
  induction l with
  | nil => rfl
  | cons a as ih =>
    simp only [List.flatMap_cons, h a (List.mem_cons_self a as)]
    rw [ih fun b hb => h b (List.mem_cons_of_mem a hb)]

/-! ## Namespace invariance of the lookups -/

theorem tagEq_addNS (u lname : String) (c : XML) :
    (decide ((addNS u c).tag = nsWrap u ++ lname)) = decide (c.tag = lname) := by
  rw [tag_addNS]
  by_cases h : c.tag = lname
  · simp [h]
  · simp [h, (string_append_left_cancel (nsWrap u) c.tag lname).not.mpr h]

theorem pathMatches_addNS (u : String) (segs : List String) (x : XML) :
    pathMatches (addNS u x) (segs.map (fun s => nsWrap u ++ s)) =
      (pathMatches x segs).map (addNS u) := by
  induction segs generalizing x with
  | nil => simp [pathMatches]
  | cons s rest ih =>
    simp only [List.map_cons, pathMatches, childrenList_addNS]
    rw [filter_map_comm (addNS u) (fun c => decide (c.tag = nsWrap u ++ s))
      (fun c => decide (c.tag = s)) (tagEq_addNS u s) x.childrenList]
    rw [List.flatMap_map]
    rw [flatMap_congr _ _ (fun c => (pathMatches c rest).map (addNS u)) (fun c _ => ih c)]
    rw [List.map_flatMap]

theorem findtextRaw_addNS (u : String) (x : XML) (segs : List String) :
    findtextRaw (addNS u x) (segs.map (fun s => nsWrap u ++ s)) = findtextRaw x segs := by
  simp only [findtextRaw, pathMatches_addNS, List.head?_map, Option.map_map]
  cases (pathMatches x segs).head? with
  | none => rfl
  | some e => simp [Function.comp, text_addNS]

theorem find_text_addNS (u : String) (hu : u ≠ "") (e : XML) (path : String) :
    find_text u (some (addNS u e)) path = find_text "" (some e) path := by
  simp only [find_text]
  have hsegs : (splitSlash path).map (effTag u) =
      ((splitSlash path).map (effTag "")).map (fun s => nsWrap u ++ s) := by
    simp only [List.map_map]
    exact List.map_congr_left fun s _ => by simp [effTag, hu]
  rw [hsegs, findtextRaw_addNS]

theorem findChild_addNS (u : String) (hu : u ≠ "") (x : XML) (lname : String) :
    findChild u (addNS u x) lname = (findChild "" x lname).map (addNS u) := by
  simp only [findChild, childrenList_addNS, effTag_of_ne u lname hu, effTag_empty]
  exact find?_map_comm (addNS u) _ _ (tagEq_addNS u lname) x.childrenList

theorem findall_addNS (u : String) (hu : u ≠ "") (x : XML) (lname : String) :
    findall u (addNS u x) lname = (findall "" x lname).map (addNS u) := by
  simp only [findall, descendants_addNS, effTag_of_ne u lname hu, effTag_empty]
  exact filter_map_comm (addNS u) _ _ (tagEq_addNS u lname) (descendants x)

theorem find_text_opt_addNS (u : String) (hu : u ≠ "") (o : Option XML) (path : String) :
    find_text u (o.map (addNS u)) path = find_text "" o path := by
  cases o with
  | none => rfl
  | some e => exact find_text_addNS u hu e path

theorem extractOwner_addNS (u : String) (hu : u ≠ "") (owner : XML) :
    extractOwner u (addNS u owner) = extractOwner "" owner := by
  simp only [extractOwner, findChild_addNS u hu, find_text_opt_addNS u hu]

theorem txFields_addNS (u : String) (hu : u ≠ "") (tx : XML) :
    txFields u (addNS u tx) = txFields "" tx := by
  have h : ∀ path, find_text u (some (addNS u tx)) path = find_text "" (some tx) path :=
    find_text_addNS u hu tx
  simp only [txFields, h]

/-! ## Namespace invariance of the parser -/

/-- Claim C4 (confirmed): for every pair of documents that are structurally
identical except that one wraps all elements in a (non-empty, well-formed)
namespace and the other (whose root is namespace-free) does not,
`parse_non_derivative` produces identical sequences of flattened records. -/
theorem parse_non_derivative_addNS (u : String) (root : XML)
    (hu : u ≠ "") (hub : '\x7d' ∉ u.data) (hr : '\x7d' ∉ root.tag.data) :
    parse_non_derivative (addNS u root) = parse_non_derivative root := by
  have hns1 : nsOf (addNS u root) = u := by
    rw [nsOf, tag_addNS]
    exact extract_ns_wrap u root.tag hub
  have hns0 : nsOf root = "" := extract_ns_plain root.tag hr
  simp only [parse_non_derivative, ownerElems, txElems, hns1, hns0]
  rw [findall_addNS u hu root "reportingOwner", findall_addNS u hu root "nonDerivativeTransaction"]
  rw [List.map_map]
  rw [List.flatMap_map]
  refine flatMap_congr _ _ _ fun tx _ => ?_
  rw [txFields_addNS u hu tx]
  refine congrArg (fun ow => List.map (fun o => mkRecord o (txFields "" tx)) ow) ?_
  exact List.map_congr_left fun o _ => extractOwner_addNS u hu o

/-! ## Classification lemmas -/

theorem classify_none : classify none = "OTHER" := by decide

theorem classify_of_strip_acquire (s : String) (h : pyStrip s ∈ acquireCodes) :
    classify (some s) = "BUY" := by
  have hs : s ≠ "" := by
    rintro rfl
    exact absurd h (by decide)
  have ht : truthy (some s) = true := by simp [truthy, hs]
  rw [classify, if_pos ⟨ht, by simpa using h⟩]

theorem classify_of_strip_dispose (s : String) (h : pyStrip s ∈ disposeCodes) :
    classify (some s) = "SELL" := by
  have hs : s ≠ "" := by
    rintro rfl
    exact absurd h (by decide)
  have ht : truthy (some s) = true := by simp [truthy, hs]
  have hna : pyStrip s ∉ acquireCodes := by
    intro ha
    have : ∀ x ∈ disposeCodes, x ∉ acquireCodes := by decide
    exact this _ h ha
  rw [classify, if_neg (fun hc => hna hc.2), if_pos ⟨ht, by simpa using h⟩]

theorem classify_of_strip_other (s : String)
    (h1 : pyStrip s ∉ acquireCodes) (h2 : pyStrip s ∉ disposeCodes) :
    classify (some s) = "OTHER" := by
  rw [classify, if_neg (fun hc => h1 (by simpa using hc.2)),
    if_neg (fun hc => h2 (by simpa using hc.2))]

/-! ## Cross-product indexing helpers -/

theorem length_flatMap_map {α β γ : Type} (l : List α) (m : List β) (f : α → β → γ) :
    (l.flatMap fun a => m.map (f a)).length = l.length * m.length := by
  induction l with
  | nil => simp
  | cons a as ih =>
    simp only [List.flatMap_cons, List.length_append, List.length_map, ih, List.length_cons]
    ring

theorem get_flatMap_map {α β γ : Type} (l : List α) (m : List β) (f : α → β → γ)
    (t i : Nat) (ht : t < l.length) (hi : i < m.length) :
    ∃ h : m.length * t + i < (l.flatMap fun a => m.map (f a)).length,
      (l.flatMap fun a => m.map (f a)).get ⟨m.length * t + i, h⟩
        = f (l.get ⟨t, ht⟩) (m.get ⟨i, hi⟩) := by
  induction l generalizing t with
  | nil => exact absurd ht (by simp)
  | cons a as ih =>
    have hlen : (((a :: as).flatMap fun a => m.map (f a))).length = (as.length + 1) * m.length := by
      simpa using length_flatMap_map (a :: as) m f
    cases t with
    | zero =>
      have hb : m.length * 0 + i < (((a :: as).flatMap fun a => m.map (f a))).length := by
        rw [hlen]
        nlinarith [Nat.zero_le (as.length * m.length)]
      refine ⟨hb, ?_⟩
      have hi' : m.length * 0 + i < (m.map (f a)).length := by simpa using hi
      simp only [List.flatMap_cons, List.get_eq_getElem]
      rw [List.getElem_append_left hi']
      simp
    | succ t' =>
      have ht' : t' < as.length := by simpa using ht
      obtain ⟨hb', heq⟩ := ih t' ht'
      have hb : m.length * (t' + 1) + i < (((a :: as).flatMap fun a => m.map (f a))).length := by
        simp only [List.flatMap_cons, List.length_append, List.length_map]
        have : m.length * (t' + 1) + i = m.length + (m.length * t' + i) := by ring
        omega
      refine ⟨hb, ?_⟩
      simp only [List.flatMap_cons, List.get_eq_getElem]
      have hge : (m.map (f a)).length ≤ m.length * (t' + 1) + i := by
        simp only [List.length_map]
        nlinarith [Nat.zero_le (m.length * t' + i)]
      rw [List.getElem_append_right hge]
      have hidx : m.length * (t' + 1) + i - (m.map (f a)).length = m.length * t' + i := by
        simp only [List.length_map]
        have : m.length * (t' + 1) = m.length * t' + m.length := by ring
        omega
      simp only [List.get_eq_getElem] at heq
      simp only [hidx, List.getElem_cons_succ]
      exact heq

/-! ## Selector lemmas -/

theorem zip4_nil1 (l2 l3 l4 : List String) : zip4 [] l2 l3 l4 = [] := rfl

theorem zip4_nil2 (l1 l3 l4 : List String) : zip4 l1 [] l3 l4 = [] := by
  cases l1 <;> rfl

theorem zip4_nil3 (l1 l2 l4 : List String) : zip4 l1 l2 [] l4 = [] := by
  cases l1 <;> cases l2 <;> rfl

theorem zip4_nil4 (l1 l2 l3 : List String) : zip4 l1 l2 l3 [] = [] := by
  cases l1 <;> cases l2 <;> cases l3 <;> rfl

theorem zip4_cons (a b c d : String) (as bs cs ds : List String) :
    zip4 (a :: as) (b :: bs) (c :: cs) (d :: ds) = (a, b, c, d) :: zip4 as bs cs ds := rfl

theorem zip4_take (k : Nat) (l1 l2 l3 l4 : List String)
    (h : min (min l1.length l2.length) (min l3.length l4.length) ≤ k) :
    zip4 l1 l2 l3 l4 = zip4 (l1.take k) (l2.take k) (l3.take k) (l4.take k) := by
  induction k generalizing l1 l2 l3 l4 with
  | zero =>
    simp only [List.take_zero, zip4_nil1]
    cases l1 with
    | nil => exact zip4_nil1 _ _ _
    | cons a as =>
      cases l2 with
      | nil => exact zip4_nil2 _ _ _
      | cons b bs =>
        cases l3 with
        | nil => exact zip4_nil3 _ _ _
        | cons c cs =>
          cases l4 with
          | nil => exact zip4_nil4 _ _ _
          | cons d ds =>
            exfalso
            simp only [List.length_cons] at h
            omega
  | succ k' ih =>
    cases l1 with
    | nil => simp [zip4_nil1]
    | cons a as =>
      cases l2 with
      | nil => simp [zip4_nil2]
      | cons b bs =>
        cases l3 with
        | nil => simp [zip4_nil3]
        | cons c cs =>
          cases l4 with
          | nil => simp [zip4_nil4]
          | cons d ds =>
            simp only [List.take_succ_cons, zip4_cons]
            rw [ih as bs cs ds]
            simp only [List.length_cons] at h
            omega

/-- The selection predicate the spec describes: recognized form type and a
filing date inside the inclusive window. -/
def selectedSpec (dsd ded : Date) (r : String × String × String × String) : Bool :=
  (r.1 = "4" || r.1 = "4/A") &&
    (match strptimeYmd r.2.1 with
     | some dt => dateLe dsd dt && dateLe dt ded
     | none => false)

theorem filter_loop_spec (sd ed : String) (dsd ded : Date)
    (hs : strptimeYmd sd = some dsd) (he : strptimeYmd ed = some ded)
    (rows : List (String × String × String × String))
    (hall : ∀ r ∈ rows, (strptimeYmd r.2.1).isSome) :
    filter_loop sd ed rows =
      some (((rows.filter (selectedSpec dsd ded)).map (fun r => ⟨r.2.2.1, r.2.2.2⟩))) := by
  induction rows with
  | nil => rfl
  | cons r rest ih =>
    obtain ⟨f, fd, acc, doc⟩ := r
    have hrest : ∀ r ∈ rest, (strptimeYmd r.2.1).isSome :=
      fun r hr => hall r (List.mem_cons_of_mem _ hr)
    have ihr := ih hrest
    by_cases hform : f ∈ (["4", "4/A"] : List String)
    · have hnn : ¬ (f ∉ (["4", "4/A"] : List String)) := not_not_intro hform
      have hfd : (strptimeYmd fd).isSome := hall _ (List.mem_cons_self _ _)
      obtain ⟨dt, hdt⟩ := Option.isSome_iff_exists.mp hfd
      have hform' : (decide (f = "4") || decide (f = "4/A")) = true := by
        simpa using hform
      by_cases h1 : dateLe dsd dt = true
      · by_cases h2 : dateLe dt ded = true
        · rw [filter_loop, if_neg hnn, hdt, hs, he]
          simp only [Option.some_bind, h1, h2, Bool.not_true, Bool.false_eq_true, if_false, ihr,
            Option.map_some]
          rw [List.filter_cons, if_pos (by simp [selectedSpec, hform', hdt, h1, h2])]
          simp
        · have h2f : dateLe dt ded = false := by simpa using h2
          rw [filter_loop, if_neg hnn, hdt, hs, he]
          simp only [Option.some_bind, h1, h2f, Bool.not_true, Bool.not_false,
            Bool.false_eq_true, if_false, if_true, ihr]
          rw [List.filter_cons, if_neg (by simp [selectedSpec, hdt, h2f])]
      · have h1f : dateLe dsd dt = false := by simpa using h1
        rw [filter_loop, if_neg hnn, hdt, hs]
        simp only [Option.some_bind, h1f, Bool.not_false, if_true, ihr]
        rw [List.filter_cons, if_neg (by simp [selectedSpec, hdt, h1f])]
    · rw [filter_loop, if_pos (by simpa using hform), ihr]
      have hf4 : f ≠ "4" := fun hc => hform (by simp [hc])
      have hf4a : f ≠ "4/A" := fun hc => hform (by simp [hc])
      rw [List.filter_cons, if_neg (by simp [selectedSpec, hf4, hf4a])]

theorem dateLe_refl (d : Date) : dateLe d d = true := by
  simp [dateLe]

/-! ## Parser shape lemmas -/

theorem parse_eq_flatMap (root : XML) :
    parse_non_derivative root =
      (txElems root).flatMap fun tx =>
        (ownerElems root).map fun e =>
          mkRecord (extractOwner (nsOf root) e) (txFields (nsOf root) tx) := by
  simp only [parse_non_derivative, List.map_map]
  rfl

theorem txFields_type_eq_classify (ns_url : String) (tx : XML) :
    (txFields ns_url tx).transaction_type = classify ((txFields ns_url tx).transaction_code) := rfl

/-! ## Claims -/

/-- Claim C1 counterexample: the claim maps every code outside the two
literal sets to OTHER, but the code `" P "` — in neither set — classifies as
BUY, because the source strips whitespace before matching. -/
theorem c1_counterexample :
    " P " ∉ acquireCodes ∧ " P " ∉ disposeCodes ∧
    classify (some " P ") ≠ "OTHER" ∧ classify (some " P ") = "BUY" := by
  refine ⟨by decide, by decide, ?_, ?_⟩ <;> decide

/-- Claim C1 (amended): classification is a fixed, total, pure function of
the transaction code, matching on the whitespace-stripped form of the code:
stripped form in `{P,F,A,M,E,J}` gives ACQUIRE (`BUY`), stripped form in
`{S,D,G,W}` gives DISPOSE (`SELL`), and every other code — one whose
stripped form is in neither set, including empty or absent — gives OTHER. -/
theorem c1_classification :
    (∀ s : String, pyStrip s ∈ acquireCodes → classify (some s) = "BUY") ∧
    (∀ s : String, pyStrip s ∈ disposeCodes → classify (some s) = "SELL") ∧
    (∀ s : String, pyStrip s ∉ acquireCodes → pyStrip s ∉ disposeCodes →
      classify (some s) = "OTHER") ∧
    classify none = "OTHER" :=
  ⟨classify_of_strip_acquire, classify_of_strip_dispose, classify_of_strip_other, classify_none⟩

/-- Claim C1 witness: the amended classification evaluated at concrete
codes from each class. -/
theorem c1_classification_witness :
    classify (some " P ") = "BUY" ∧ classify (some "S") = "SELL" ∧
    classify (some "Z") = "OTHER" :=
  ⟨c1_classification.1 " P " (by decide),
   c1_classification.2.1 "S" (by decide),
   c1_classification.2.2.1 "Z" (by decide) (by decide)⟩

/-- Claim C2 (confirmed): a parsed document with `O` reporting-owner
elements and `T` non-derivative-transaction elements yields exactly `T × O`
flattened records, and the record at position `O*t + i` is built from
transaction `t`'s fields (identical across all `O` copies of transaction
`t`) and owner `i`'s name and title. -/
theorem c2_cross_product (root : XML) :
    (parse_non_derivative root).length = (txElems root).length * (ownerElems root).length ∧
    ∀ (t i : Nat) (ht : t < (txElems root).length) (hi : i < (ownerElems root).length),
      ∃ h : (ownerElems root).length * t + i < (parse_non_derivative root).length,
        (parse_non_derivative root).get ⟨(ownerElems root).length * t + i, h⟩ =
          mkRecord (extractOwner (nsOf root) ((ownerElems root).get ⟨i, hi⟩))
            (txFields (nsOf root) ((txElems root).get ⟨t, ht⟩)) := by
  constructor
  · rw [parse_eq_flatMap]
    exact length_flatMap_map _ _ _
  · intro t i ht hi
    rw [parse_eq_flatMap]
    exact get_flatMap_map (txElems root) (ownerElems root) _ t i ht hi

/-- Claim C2 witness: the two-owner, two-transaction document has 4 records,
and the record at position `2*1 + 1` pairs the second transaction with the
second owner. -/
theorem c2_cross_product_witness :
    (parse_non_derivative exDoc2).length = (txElems exDoc2).length * (ownerElems exDoc2).length ∧
    ∃ h : (ownerElems exDoc2).length * 1 + 1 < (parse_non_derivative exDoc2).length,
      (parse_non_derivative exDoc2).get ⟨(ownerElems exDoc2).length * 1 + 1, h⟩ =
        mkRecord (extractOwner (nsOf exDoc2) ((ownerElems exDoc2).get ⟨1, by decide⟩))
          (txFields (nsOf exDoc2) ((txElems exDoc2).get ⟨1, by decide⟩)) :=
  ⟨(c2_cross_product exDoc2).1, (c2_cross_product exDoc2).2 1 1 (by decide) (by decide)⟩

/-- Claim C3 (confirmed): when the window bounds parse and every filing date
in the zipped rows parses, the selector returns exactly the rows whose form
type is `4` or `4/A` and whose date lies in the inclusive window, in source
order; moreover a recognized-form row dated exactly at either bound
satisfies the selection predicate (for a non-empty window), and a row with
any other form type never does. -/
theorem c3_filter_form4 (forms fdates accs docs : List String) (sd ed : String)
    (dsd ded : Date)
    (hs : strptimeYmd sd = some dsd) (he : strptimeYmd ed = some ded)
    (hall : ∀ r ∈ zip4 forms fdates accs docs, (strptimeYmd r.2.1).isSome) :
    filter_form4_filings (mkJson forms fdates accs docs) sd ed =
      some (((zip4 forms fdates accs docs).filter (selectedSpec dsd ded)).map
        (fun r => ⟨r.2.2.1, r.2.2.2⟩)) ∧
    (∀ f fd acc doc, (f = "4" ∨ f = "4/A") → strptimeYmd fd = some dsd →
      dateLe dsd ded = true → selectedSpec dsd ded (f, fd, acc, doc) = true) ∧
    (∀ f fd acc doc, (f = "4" ∨ f = "4/A") → strptimeYmd fd = some ded →
      dateLe dsd ded = true → selectedSpec dsd ded (f, fd, acc, doc) = true) ∧
    (∀ f fd acc doc, f ≠ "4" → f ≠ "4/A" → selectedSpec dsd ded (f, fd, acc, doc) = false) := by
  refine ⟨?_, ?_, ?_, ?_⟩
  · rw [filter_form4_filings]
    exact filter_loop_spec sd ed dsd ded hs he _ hall
  · intro f fd acc doc hf hfd hwin
    rcases hf with hf | hf <;>
      simp [selectedSpec, hf, hfd, dateLe_refl, hwin]
  · intro f fd acc doc hf hfd hwin
    rcases hf with hf | hf <;>
      simp [selectedSpec, hf, hfd, dateLe_refl, hwin]
  · intro f fd acc doc hf4 hf4a
    simp [selectedSpec, hf4, hf4a]

/-- Claim C3 witness: four metadata rows — boundary-dated `4`, in-window
`8-K`, boundary-dated `4/A`, out-of-window `4` — select exactly the first
and third rows, in order. -/
theorem c3_filter_form4_witness :
    filter_form4_filings
        (mkJson ["4", "8-K", "4/A", "4"]
          ["2020-01-01", "2020-06-01", "2020-12-31", "2021-01-01"]
          ["a1", "a2", "a3", "a4"] ["d1", "d2", "d3", "d4"])
        "2020-01-01" "2020-12-31" =
      some [⟨"a1", "d1"⟩, ⟨"a3", "d3"⟩] := by
  rw [(c3_filter_form4 ["4", "8-K", "4/A", "4"]
      ["2020-01-01", "2020-06-01", "2020-12-31", "2021-01-01"]
      ["a1", "a2", "a3", "a4"] ["d1", "d2", "d3", "d4"]
      "2020-01-01" "2020-12-31" ⟨2020, 1, 1⟩ ⟨2020, 12, 31⟩
      (by decide) (by decide) (by decide)).1]
  decide

/-- Claim C4 witness: the namespace invariance applied to a concrete
document and namespace URI. -/
theorem c4_namespace_witness :
    parse_non_derivative (addNS exNsUri exDoc2) = parse_non_derivative exDoc2 :=
  parse_non_derivative_addNS exNsUri exDoc2 (by decide) (by decide) (by decide)

/-- Claim C5 (confirmed): a successfully fetched response whose body's
lowercase form contains the `<html` marker makes `fetch_xml` fail with the
distinct content-mismatch error, never returning the body as content. -/
theorem c5_fetch_html_mismatch (url : String) (resp : HttpResponse)
    (hok : resp.status < 400)
    (hhtml : containsSub (pyLower resp.text) "<html" = true) :
    fetch_xml url resp = .error ("HTML page found instead of XML: " ++ url) ∧
    ∀ s, fetch_xml url resp ≠ .ok s := by
  have h1 : ¬(400 ≤ resp.status ∧ resp.status < 600) := fun hc => by omega
  refine ⟨?_, ?_⟩
  · simp [fetch_xml, h1, hhtml]
  · intro s
    simp [fetch_xml, h1, hhtml]

/-- Claim C5 witness: a 200 response carrying an HTML error page fails with
the content-mismatch error. -/
theorem c5_fetch_html_mismatch_witness :
    fetch_xml "http://x/doc.xml" ⟨200, "<HTML>Not Found</HTML>"⟩ =
      .error ("HTML page found instead of XML: " ++ "http://x/doc.xml") :=
  (c5_fetch_html_mismatch "http://x/doc.xml" ⟨200, "<HTML>Not Found</HTML>"⟩
    (by decide) (by decide)).1

/-- Claim C6 counterexample: the claim says an absent path yields the
default value `"not present"`, but the source's `find_text` default is
`None`: on a transaction with no `transactionDate` element the lookup and
the extracted field are `none`, not the string `"not present"`. -/
theorem c6_counterexample :
    find_text "" (some exTxNoDate) "transactionDate/value" = none ∧
    find_text "" (some exTxNoDate) "transactionDate/value" ≠ some "not present" ∧
    (txFields "" exTxNoDate).transaction_date ≠ some "not present" := by
  refine ⟨by decide, by decide, by decide⟩

/-- Claim C6 (amended): each transaction-level field (transaction code,
date, share count, price per share, security title) is obtained via a text
lookup that yields the null default `none` — the value marking the path as
not present — whenever the looked-up path is absent from the document (for
the code, when both its candidate paths are absent). -/
theorem c6_absent_defaults (ns_url : String) (tx : XML) :
    (pathMatches tx ((splitSlash "transactionDate/value").map (effTag ns_url)) = [] →
      (txFields ns_url tx).transaction_date = none) ∧
    (pathMatches tx ((splitSlash "transactionAmounts/transactionShares/value").map (effTag ns_url)) = [] →
      (txFields ns_url tx).shares = none) ∧
    (pathMatches tx ((splitSlash "transactionAmounts/transactionPricePerShare/value").map (effTag ns_url)) = [] →
      (txFields ns_url tx).price_per_share = none) ∧
    (pathMatches tx ((splitSlash "securityTitle/value").map (effTag ns_url)) = [] →
      (txFields ns_url tx).security_title = none) ∧
    (pathMatches tx ((splitSlash "transactionCoding/transactionCode").map (effTag ns_url)) = [] →
      pathMatches tx ((splitSlash "transactionCoding/transactionCode/value").map (effTag ns_url)) = [] →
      (txFields ns_url tx).transaction_code = none) := by
  refine ⟨fun h => ?_, fun h => ?_, fun h => ?_, fun h => ?_, fun h1 h2 => ?_⟩
  · simp [txFields, find_text, findtextRaw, h]
  · simp [txFields, find_text, findtextRaw, h]
  · simp [txFields, find_text, findtextRaw, h]
  · simp [txFields, find_text, findtextRaw, h]
  · simp [txFields, find_text, findtextRaw, h1, h2, truthy]

/-- Claim C6 witness: a childless transaction element has every extracted
field equal to `none`. -/
theorem c6_absent_defaults_witness :
    (txFields "" exTxBare).transaction_date = none ∧
    (txFields "" exTxBare).transaction_code = none :=
  ⟨(c6_absent_defaults "" exTxBare).1 rfl,
   (c6_absent_defaults "" exTxBare).2.2.2.2 rfl rfl⟩

/-- Claim C7 (confirmed): the extracted owner name is the first non-empty
result of the primary name path then the alternate name path under the
`reportingOwnerId` child, and the literal `Unknown` when both yield nothing
(absent or empty); the title comes from the `reportingOwnerRelationship`
sub-element's `officerTitle` and defaults to the empty string when that
yields nothing. -/
theorem c7_owner_extraction (ns_url : String) (owner : XML) :
    (∀ s, find_text ns_url (findChild ns_url owner "reportingOwnerId") "rptOwnerName" = some s →
      s ≠ "" → (extractOwner ns_url owner).officer_name = s) ∧
    (truthy (find_text ns_url (findChild ns_url owner "reportingOwnerId") "rptOwnerName") = false →
      ∀ s, find_text ns_url (findChild ns_url owner "reportingOwnerId") "ownerName" = some s →
      s ≠ "" → (extractOwner ns_url owner).officer_name = s) ∧
    (truthy (find_text ns_url (findChild ns_url owner "reportingOwnerId") "rptOwnerName") = false →
      truthy (find_text ns_url (findChild ns_url owner "reportingOwnerId") "ownerName") = false →
      (extractOwner ns_url owner).officer_name = "Unknown") ∧
    (∀ s, find_text ns_url (findChild ns_url owner "reportingOwnerRelationship") "officerTitle" = some s →
      s ≠ "" → (extractOwner ns_url owner).officer_title = s) ∧
    (truthy (find_text ns_url (findChild ns_url owner "reportingOwnerRelationship") "officerTitle") = false →
      (extractOwner ns_url owner).officer_title = "") := by
  refine ⟨?_, ?_, ?_, ?_, ?_⟩
  · intro s h hs
    have ht : truthy (some s) = true := by simp [truthy, hs]
    simp [extractOwner, firstTruthy, h, ht]
  · intro h1 s h hs
    have ht : truthy (some s) = true := by simp [truthy, hs]
    simp [extractOwner, firstTruthy, h1, h, ht]
  · intro h1 h2
    simp [extractOwner, firstTruthy, h1, h2]
  · intro s h hs
    have ht : truthy (some s) = true := by simp [truthy, hs]
    simp [extractOwner, firstTruthy, h, ht]
  · intro h
    simp [extractOwner, firstTruthy, h]

/-- Claim C7 witness: primary-path name, alternate-path name, and the
double-default owner evaluated concretely. -/
theorem c7_owner_extraction_witness :
    (extractOwner "" exOwnerA).officer_name = "Alice" ∧
    (extractOwner "" exOwnerB).officer_name = "Bob" ∧
    (extractOwner "" exOwnerBare).officer_name = "Unknown" ∧
    (extractOwner "" exOwnerBare).officer_title = "" :=
  ⟨(c7_owner_extraction "" exOwnerA).1 "Alice" (by decide) (by decide),
   (c7_owner_extraction "" exOwnerB).2.1 (by decide) "Bob" (by decide) (by decide),
   (c7_owner_extraction "" exOwnerBare).2.2.1 (by decide) (by decide),
   (c7_owner_extraction "" exOwnerBare).2.2.2.2 (by decide)⟩

/-- Claim C8 (confirmed): the exporter produces a file exactly when the
aggregated record sequence is non-empty; the file then consists of the
header (the record key set in its insertion order) followed by one row per
record in aggregation order, and the empty sequence produces no file. -/
theorem c8_export (ts : List Record) :
    (export_csv ts = none ↔ ts = []) ∧
    (ts ≠ [] → export_csv ts = some (recordFieldnames :: ts.map recordRow) ∧
      (ts.map recordRow).length = ts.length) := by
  constructor
  · cases ts <;> simp [export_csv]
  · intro h
    cases ts with
    | nil => exact absurd rfl h
    | cons t rest => simp [export_csv]

/-- Claim C8 witness: a singleton aggregation yields the header plus one
row; the empty aggregation yields no file. -/
theorem c8_export_witness :
    (export_csv [] = none) ∧
    export_csv [mkRecord ⟨"Alice", ""⟩ ⟨some "P", "BUY", none, none, none, none⟩] =
      some (recordFieldnames ::
        [mkRecord ⟨"Alice", ""⟩ ⟨some "P", "BUY", none, none, none, none⟩].map recordRow) :=
  ⟨(c8_export []).1.mpr rfl,
   ((c8_export [mkRecord ⟨"Alice", ""⟩ ⟨some "P", "BUY", none, none, none, none⟩]).2
      (by decide)).1⟩

/-- Claim C9 (confirmed): the selector never fails on incomplete metadata —
a missing `filings` section, a missing `recent` section, or any missing
parallel list yields the empty selection (`some []`, never the raising
`none`) for arbitrary window strings; and with all lists present it reads
only up to the shortest list: truncating every list to the minimum length
does not change the result. -/
theorem c9_selector_robust (sd ed : String) (r : RecentFilings) :
    (filter_form4_filings ⟨none⟩ sd ed = some []) ∧
    (filter_form4_filings ⟨some ⟨none⟩⟩ sd ed = some []) ∧
    (r.form = none → filter_form4_filings ⟨some ⟨some r⟩⟩ sd ed = some []) ∧
    (r.filingDate = none → filter_form4_filings ⟨some ⟨some r⟩⟩ sd ed = some []) ∧
    (r.accessionNumber = none → filter_form4_filings ⟨some ⟨some r⟩⟩ sd ed = some []) ∧
    (r.primaryDocument = none → filter_form4_filings ⟨some ⟨some r⟩⟩ sd ed = some []) ∧
    (∀ forms fdates accs docs : List String,
      filter_form4_filings (mkJson forms fdates accs docs) sd ed =
        filter_form4_filings
          (mkJson
            (forms.take (min (min forms.length fdates.length) (min accs.length docs.length)))
            (fdates.take (min (min forms.length fdates.length) (min accs.length docs.length)))
            (accs.take (min (min forms.length fdates.length) (min accs.length docs.length)))
            (docs.take (min (min forms.length fdates.length) (min accs.length docs.length))))
          sd ed) := by
  refine ⟨rfl, rfl, fun h => ?_, fun h => ?_, fun h => ?_, fun h => ?_, fun forms fdates accs docs => ?_⟩
  · simp [filter_form4_filings, h, zip4_nil1, filter_loop]
  · simp [filter_form4_filings, h, zip4_nil2, filter_loop]
  · simp [filter_form4_filings, h, zip4_nil3, filter_loop]
  · simp [filter_form4_filings, h, zip4_nil4, filter_loop]
  · show filter_loop sd ed (zip4 forms fdates accs docs) =
      filter_loop sd ed (zip4
        (forms.take (min (min forms.length fdates.length) (min accs.length docs.length)))
        (fdates.take (min (min forms.length fdates.length) (min accs.length docs.length)))
        (accs.take (min (min forms.length fdates.length) (min accs.length docs.length)))
        (docs.take (min (min forms.length fdates.length) (min accs.length docs.length))))
    exact congrArg (filter_loop sd ed)
      (zip4_take (min (min forms.length fdates.length) (min accs.length docs.length))
        forms fdates accs docs (le_refl _))

/-- Claim C9 witness: a JSON with only a `filingDate` list (and, separately,
none at all) selects nothing without raising. -/
theorem c9_selector_robust_witness :
    filter_form4_filings ⟨none⟩ "not-a-date" "also-not" = some [] ∧
    filter_form4_filings ⟨some ⟨some ⟨none, some ["2020-01-01"], some ["a"], some ["d"]⟩⟩⟩
      "not-a-date" "also-not" = some [] :=
  ⟨(c9_selector_robust "not-a-date" "also-not" ⟨none, none, none, none⟩).1,
   (c9_selector_robust "not-a-date" "also-not"
      ⟨none, some ["2020-01-01"], some ["a"], some ["d"]⟩).2.2.1 rfl⟩

/-- Claim C10 (confirmed): classification strips surrounding whitespace
from the transaction code before matching, but the emitted record stores
the raw unstripped code: whenever transaction `t`'s extracted code is `s`
with stripped form in the acquire (resp. dispose) set, every record for `t`
has derived type `BUY` (resp. `SELL`) while its `transaction_code` field is
still the raw `s`. -/
theorem c10_raw_code_stripped_classification (root : XML) (s : String) (t i : Nat)
    (ht : t < (txElems root).length) (hi : i < (ownerElems root).length)
    (hc : (txFields (nsOf root) ((txElems root).get ⟨t, ht⟩)).transaction_code = some s) :
    ∃ h : (ownerElems root).length * t + i < (parse_non_derivative root).length,
      ((parse_non_derivative root).get
          ⟨(ownerElems root).length * t + i, h⟩).transaction_code = some s ∧
      (pyStrip s ∈ acquireCodes →
        ((parse_non_derivative root).get
            ⟨(ownerElems root).length * t + i, h⟩).transaction_type = "BUY") ∧
      (pyStrip s ∈ disposeCodes →
        ((parse_non_derivative root).get
            ⟨(ownerElems root).length * t + i, h⟩).transaction_type = "SELL") := by
  rw [parse_eq_flatMap]
  obtain ⟨h, heq⟩ := get_flatMap_map (txElems root) (ownerElems root)
    (fun tx e => mkRecord (extractOwner (nsOf root) e) (txFields (nsOf root) tx)) t i ht hi
  refine ⟨h, ?_, ?_, ?_⟩
  · rw [heq]
    exact hc
  · intro hm
    rw [heq]
    show (txFields (nsOf root) ((txElems root).get ⟨t, ht⟩)).transaction_type = "BUY"
    rw [txFields_type_eq_classify, hc]
    exact classify_of_strip_acquire s hm
  · intro hm
    rw [heq]
    show (txFields (nsOf root) ((txElems root).get ⟨t, ht⟩)).transaction_type = "SELL"
    rw [txFields_type_eq_classify, hc]
    exact classify_of_strip_dispose s hm

/-- Claim C10 witness: in the document whose transaction code is `" P "`,
the emitted record stores the raw `" P "` and classifies as `BUY`. -/
theorem c10_raw_code_witness :
    ∃ h : (ownerElems exDocStrip).length * 0 + 0 < (parse_non_derivative exDocStrip).length,
      ((parse_non_derivative exDocStrip).get
          ⟨(ownerElems exDocStrip).length * 0 + 0, h⟩).transaction_code = some " P " ∧
      ((parse_non_derivative exDocStrip).get
          ⟨(ownerElems exDocStrip).length * 0 + 0, h⟩).transaction_type = "BUY" := by
  obtain ⟨h, hcode, hacq, _⟩ := c10_raw_code_stripped_classification exDocStrip " P " 0 0
    (by decide) (by decide) (by decide)
  exact ⟨h, hcode, hacq (by decide)⟩

end Form4
